import Mathlib

/-!
Shallow embedding of `src/vat.py` (virtual adversarial training).

Tensors of rank ≥ 2 are modelled as `List (List ℝ)`: the outer list is the
batch axis, each inner list is one example flattened across all non-batch
axes (the source reduces norms and class sums over exactly those axes, so
the flattening preserves every reduction the code performs).  Floating-point
arithmetic is idealised as real arithmetic.

External collaborator capabilities of the source (`tensorflow` ops that are
not part of this repository's code) are embedded as follows:
* `tf.nn.softmax`, `tf.log`, `tf.norm`, `tf.maximum` — by their mathematical
  definitions (`softmax`, `Real.log`, `exNorm`, `max`);
* `tf.random_normal` — an explicit `noise` argument (the sampled values);
* `tf.gradients` — an explicit `gradients` argument: a function receiving
  the scalar objective (as a function of the perturbation) and the point at
  which to differentiate;
* elementwise binary ops — `ebop`/`ebop2`, which implement the 1-D
  broadcasting rule on the class axis (a length-1 operand broadcasts) and
  require the batch axes to agree, returning `none` on a shape mismatch,
  mirroring the shape errors TensorFlow raises at graph construction.
Python's `UnboundLocalError` for `vat_perturbation` when the loop body never
runs is modelled by threading the loop variable as an `Option` and failing
with `VatErr.unboundVariable` when it is still unset after the loop.
-/

noncomputable section

/-- A batched tensor: one flattened row per example. -/
abbrev Tensor2 := List (List ℝ)

/-- Errors the source can raise at call time. -/
inductive VatErr where
  | unboundVariable : VatErr
  | shapeError : VatErr
deriving DecidableEq

/-- `clipped = lambda x: tf.maximum(x, clip_value_min)` (src/vat.py line 31). -/
def clipped (clip_value_min x : ℝ) : ℝ := max x clip_value_min

/-- Euclidean norm of one example over all its (flattened) non-batch axes:
`tf.norm(x, axis=axis_without_batch_size)` for one batch row. -/
def exNorm (e : List ℝ) : ℝ := Real.sqrt ((e.map (fun v => v ^ 2)).sum)

/-- `normalized = lambda x: x / clipped(tf.norm(x, axis=..., keep_dims=True))`
(src/vat.py line 35): each example is divided by its clip-floored norm. -/
def normalized (clip_value_min : ℝ) (x : Tensor2) : Tensor2 :=
  x.map (fun e => e.map (fun v => v / clipped clip_value_min (exNorm e)))

/-- One row of `tf.nn.softmax`. -/
def softmaxRow (s : List ℝ) : List ℝ :=
  s.map (fun a => Real.exp a / ((s.map Real.exp).sum))

/-- `tf.nn.softmax` over the class axis of a batched score tensor. -/
def softmax (t : Tensor2) : Tensor2 := t.map softmaxRow

/-- Elementwise `tf.log`. -/
def tlog (t : Tensor2) : Tensor2 := t.map (fun r => r.map Real.log)

/-- Elementwise `clipped` over a batched tensor. -/
def tclip (c : ℝ) (t : Tensor2) : Tensor2 := t.map (fun r => r.map (clipped c))

/-- Scalar times tensor (`xi * ...`, `epsilon * ...`). -/
def tscale (a : ℝ) (t : Tensor2) : Tensor2 := t.map (fun r => r.map (fun v => a * v))

/-- `tf.stop_gradient`: the identity on values; in the source it only marks a
value as excluded from differentiation by the external gradient capability. -/
def stop_gradient (t : Tensor2) : Tensor2 := t

/-- Elementwise binary op on two 1-D tensors with TensorFlow's broadcasting
rule: equal lengths combine pointwise, a length-1 operand broadcasts,
anything else is a shape error. -/
def ebop (f : ℝ → ℝ → ℝ) (as bs : List ℝ) : Option (List ℝ) :=
  if as.length = bs.length then some (List.zipWith f as bs)
  else if as.length = 1 then some (bs.map (fun b => f (as.headD 0) b))
  else if bs.length = 1 then some (as.map (fun a => f a (bs.headD 0)))
  else none

/-- Elementwise binary op on two batched tensors: the batch axes must agree,
rows combine with the 1-D broadcasting rule. -/
def ebop2 (f : ℝ → ℝ → ℝ) : Tensor2 → Tensor2 → Option Tensor2
  | [], [] => some []
  | r :: rs, s :: ss =>
    match ebop f r s, ebop2 f rs ss with
    | some row, some rest => some (row :: rest)
    | _, _ => none
  | _, _ => none

/-- Per-example weighting.  The source's `weight` argument may be a Python
scalar (broadcast over the batch) or a per-example vector. -/
inductive Weight where
  | scalar : ℝ → Weight
  | vector : List ℝ → Weight

/-- `ce * weight` (src/vat.py lines 41 and 50). -/
def Weight.mul (w : Weight) (ce : List ℝ) : Option (List ℝ) :=
  match w with
  | .scalar a => some (ce.map (fun x => x * a))
  | .vector ws => ebop (· * ·) ce ws

/-- `tf.reduce_sum(weight)` (src/vat.py line 50). -/
def Weight.sum : Weight → ℝ
  | .scalar a => a
  | .vector ws => ws.sum

/-- All-zero weight: a zero scalar, or a vector of zeros. -/
def Weight.allZero : Weight → Prop
  | .scalar a => a = 0
  | .vector ws => ∀ v ∈ ws, v = 0

/-- The call surfaced an error rather than returning a result. -/
def reportsError (r : Except VatErr (ℝ × Tensor2)) : Prop := ∃ e, r = .error e

/-- `-tf.reduce_sum(p * tf.log(clipped(q)), reduction_indices=1)`:
per-example cross-entropy-style divergence rows (src/vat.py lines 41, 50). -/
def crossEntropyRows (c : ℝ) (p q : Tensor2) : Option (List ℝ) :=
  (ebop2 (· * ·) p (tlog (tclip c q))).map (fun m => m.map (fun r => -r.sum))

/-- `cross_entropy_accommodating_perturbation` as a function of the current
perturbation (src/vat.py lines 40–41): forward pass at `input + perturbation`
through the approximation network, divergence against the fixed
`plain_softmax`, times `weight`. -/
def cross_entropy_accommodating_perturbation (netA : Tensor2 → Tensor2)
    (input plain : Tensor2) (c : ℝ) (w : Weight) (pert : Tensor2) :
    Option (List ℝ) :=
  match ebop2 (· + ·) input pert with
  | none => none
  | some xp =>
    match crossEntropyRows c plain (softmax (netA xp)) with
    | none => none
    | some ce => Weight.mul w ce

/-- The scalar objective handed to the gradient capability: `tf.gradients`
sums a non-scalar `ys`, so the differentiated quantity is the sum of the
per-example weighted divergences. -/
def summed_cross_entropy (netA : Tensor2 → Tensor2) (input plain : Tensor2)
    (c : ℝ) (w : Weight) : Tensor2 → Option ℝ :=
  fun pert => (cross_entropy_accommodating_perturbation netA input plain c w pert).map List.sum

/-- The approximation loop (src/vat.py lines 39–44).  The state carries the
current probe `perturbation` and the latest `vat_perturbation` (the
normalized adversarial direction), which is unset before the first
iteration. -/
def vatLoop (gradients : (Tensor2 → Option ℝ) → Tensor2 → Tensor2)
    (netA : Tensor2 → Tensor2) (input plain : Tensor2) (c : ℝ) (w : Weight)
    (xi : ℝ) : Nat → Tensor2 → Option Tensor2 → Except VatErr Tensor2
  | 0, _, dir =>
    match dir with
    | some d => .ok d
    | none => .error .unboundVariable
  | n + 1, pert, _ =>
    match cross_entropy_accommodating_perturbation netA input plain c w pert with
    | none => .error .shapeError
    | some _ =>
      let g := gradients (summed_cross_entropy netA input plain c w) pert
      let d := normalized c g
      vatLoop gradients netA input plain c w xi n (tscale xi d) (some d)

/-- `VAT` (src/vat.py lines 3–51).  `noise` is the value sampled by
`tf.random_normal(shape=tf.shape(input_tensor))`; `gradients` is the
external automatic-differentiation capability (`tf.gradients`).  Returns
`(vat_cross_entropy, vat_perturbation)` or the error the source raises. -/
def VAT (input : Tensor2) (network : Tensor2 → Tensor2)
    (network_to_approximate : Option (Tensor2 → Tensor2))
    (xi epsilon : ℝ) (weight : Weight) (num_approximation : Nat)
    (clip_value_min : ℝ) (noise : Tensor2)
    (gradients : (Tensor2 → Option ℝ) → Tensor2 → Tensor2) :
    Except VatErr (ℝ × Tensor2) :=
  let netA := network_to_approximate.getD network
  let plain_softmax := softmax (netA input)
  let pert0 := tscale xi (normalized clip_value_min noise)
  match vatLoop gradients netA input plain_softmax clip_value_min weight xi
      num_approximation pert0 none with
  | .error e => .error e
  | .ok dir =>
    let current_softmax :=
      if network_to_approximate.isNone then plain_softmax
      else softmax (network input)
    let current_softmax := stop_gradient current_softmax
    let vat_perturbation := stop_gradient (tscale epsilon dir)
    match ebop2 (· + ·) input vat_perturbation with
    | none => .error .shapeError
    | some xv =>
      match crossEntropyRows clip_value_min current_softmax (softmax (network xv)) with
      | none => .error .shapeError
      | some ce =>
        match Weight.mul weight ce with
        | none => .error .shapeError
        | some weighted =>
          .ok (weighted.sum / (Weight.sum weight + 1e-30), vat_perturbation)


/-! ## Shape and norm facts about the embedded operations -/

/-- The shape of a batched tensor: the length of each example row. -/
def shapeOf (t : Tensor2) : List Nat := t.map List.length

lemma shapeOf_map_rows (f : List ℝ → ℝ → ℝ) (t : Tensor2) :
    shapeOf (t.map (fun e => e.map (f e))) = shapeOf t := by
  simp [shapeOf]

lemma shapeOf_tscale (a : ℝ) (t : Tensor2) : shapeOf (tscale a t) = shapeOf t := by
  simp [tscale, shapeOf]

lemma shapeOf_normalized (c : ℝ) (t : Tensor2) :
    shapeOf (normalized c t) = shapeOf t := by
  simp [normalized, shapeOf]

lemma softmaxRow_singleton (a : ℝ) : softmaxRow [a] = [1] := by
  simp [softmaxRow, Real.exp_ne_zero]

lemma exNorm_singleton (a : ℝ) : exNorm [a] = |a| := by
  simp [exNorm, Real.sqrt_sq_eq_abs]

lemma exNorm_nonneg (e : List ℝ) : 0 ≤ exNorm e := Real.sqrt_nonneg _

lemma sum_sq_nonneg (e : List ℝ) : 0 ≤ (e.map (fun v => v ^ 2)).sum :=
  List.sum_nonneg (by
    intro x hx
    obtain ⟨v, _, rfl⟩ := List.mem_map.mp hx
    exact sq_nonneg v)

lemma exNorm_map_mul (k : ℝ) (e : List ℝ) :
    exNorm (e.map (fun v => k * v)) = |k| * exNorm e := by
  unfold exNorm
  rw [List.map_map]
  have h : ((fun v => v ^ 2) ∘ fun v => k * v) = fun v => k ^ 2 * v ^ 2 := by
    funext v
    simp [mul_pow]
  rw [h, List.sum_map_mul_left, Real.sqrt_mul (sq_nonneg k), Real.sqrt_sq_eq_abs]

lemma exNorm_map_div (k : ℝ) (e : List ℝ) :
    exNorm (e.map (fun v => v / k)) = exNorm e / |k| := by
  have h : (fun v => v / k) = fun v => k⁻¹ * v := by
    funext v
    rw [inv_mul_eq_div]
  rw [h, exNorm_map_mul, abs_inv, inv_mul_eq_div]

/-- Norm of an example divided by its (unclipped) positive norm is `1`. -/
lemma exNorm_map_div_self (e : List ℝ) (h : 0 < exNorm e) :
    exNorm (e.map (fun v => v / exNorm e)) = 1 := by
  rw [exNorm_map_div, abs_of_pos h, div_self (ne_of_gt h)]

/-! ## Elementwise-op facts -/

lemma ebop_eq_zipWith (f : ℝ → ℝ → ℝ) (a b : List ℝ) (h : a.length = b.length) :
    ebop f a b = some (List.zipWith f a b) := by
  simp [ebop, h]

lemma ebop_some_length {f : ℝ → ℝ → ℝ} {a b out : List ℝ}
    (h : ebop f a b = some out) (ha : a.length ≠ 1) :
    out.length = a.length := by
  unfold ebop at h
  by_cases h1 : a.length = b.length
  · rw [if_pos h1] at h
    obtain rfl : List.zipWith f a b = out := by simpa using h
    simp [List.length_zipWith, h1]
  · rw [if_neg h1, if_neg ha] at h
    by_cases h3 : b.length = 1
    · rw [if_pos h3] at h
      obtain rfl : a.map (fun x => f x (b.headD 0)) = out := by simpa using h
      simp
    · rw [if_neg h3] at h
      simp at h

lemma ebop2_some_length {f : ℝ → ℝ → ℝ} :
    ∀ {p q m : Tensor2}, ebop2 f p q = some m → m.length = p.length
  | [], [], m, h => by simp [ebop2] at h; simp [h.symm]
  | [], _ :: _, m, h => by simp [ebop2] at h
  | _ :: _, [], m, h => by simp [ebop2] at h
  | r :: rs, s :: ss, m, h => by
    unfold ebop2 at h
    split at h
    · rename_i row rest hrow hrest
      obtain rfl : row :: rest = m := by simpa using h
      simpa using ebop2_some_length hrest
    · exact absurd h (by simp)

lemma ebop2_sameShape (f : ℝ → ℝ → ℝ) :
    ∀ (p q : Tensor2), shapeOf p = shapeOf q →
      ebop2 f p q = some (List.zipWith (List.zipWith f) p q)
  | [], [], _ => by simp [ebop2]
  | [], _ :: _, h => by simp [shapeOf] at h
  | _ :: _, [], h => by simp [shapeOf] at h
  | r :: rs, s :: ss, h => by
    simp only [shapeOf, List.map_cons, List.cons.injEq] at h
    simp [ebop2, ebop_eq_zipWith _ _ _ h.1,
      ebop2_sameShape f rs ss (by simpa [shapeOf] using h.2)]

lemma crossEntropyRows_length {c : ℝ} {p q : Tensor2} {ce : List ℝ}
    (h : crossEntropyRows c p q = some ce) : ce.length = p.length := by
  unfold crossEntropyRows at h
  cases hm : ebop2 (· * ·) p (tlog (tclip c q)) with
  | none => rw [hm] at h; simp at h
  | some m =>
    rw [hm] at h
    simp only [Option.map_some'] at h
    obtain rfl : m.map (fun r => -r.sum) = ce := by simpa using h
    simpa using ebop2_some_length hm

lemma shapeOf_tlog_tclip (c : ℝ) (q : Tensor2) :
    shapeOf (tlog (tclip c q)) = shapeOf q := by
  simp [shapeOf, tlog, tclip]

/-- Negated row sums of the product tensor, in closed form. -/
lemma ce_rows_closed (c : ℝ) : ∀ (p q : Tensor2),
    List.map (fun r => -r.sum)
        (List.zipWith (List.zipWith (· * ·)) p (tlog (tclip c q)))
      = List.zipWith
          (fun pr qr => -((List.zipWith (fun a b => a * Real.log (clipped c b)) pr qr).sum))
          p q
  | [], q => by simp
  | _ :: _, [] => by simp [tlog, tclip]
  | r :: rs, s :: ss => by
    simp only [tlog, tclip, List.map_cons, List.map_map, List.zipWith_cons_cons,
      List.cons.injEq]
    exact ⟨by simp [List.zipWith_map_right, Function.comp],
      by simpa [tlog, tclip] using ce_rows_closed c rs ss⟩

/-- Closed form of the per-example divergence when the reference and compared
distributions have the same shape: row `i` is
`-Σ_class p i j * log (clipped c (q i j))`. -/
lemma crossEntropyRows_sameShape (c : ℝ) (p q : Tensor2)
    (h : shapeOf p = shapeOf q) :
    crossEntropyRows c p q =
      some (List.zipWith
        (fun pr qr => -((List.zipWith (fun a b => a * Real.log (clipped c b)) pr qr).sum))
        p q) := by
  unfold crossEntropyRows
  rw [ebop2_sameShape _ _ _ (by rw [shapeOf_tlog_tclip]; exact h)]
  simp only [Option.map_some', Option.some.injEq]
  exact ce_rows_closed c p q


/-! ## Characterization of a successful `VAT` call -/

/-- The reference distribution of the final evaluation is
`softmax (network input)` on both branches of the `isSameNetwork` test:
when the approximation network is the default, `plain_softmax` was itself
computed via `network`. -/
lemma currentSoftmax_eq (nta : Option (Tensor2 → Tensor2))
    (network : Tensor2 → Tensor2) (input : Tensor2) :
    (if nta.isNone then softmax ((nta.getD network) input)
     else softmax (network input)) = softmax (network input) := by
  cases nta <;> simp

lemma VAT_ok_char {input : Tensor2} {network : Tensor2 → Tensor2}
    {nta : Option (Tensor2 → Tensor2)} {xi eps : ℝ} {w : Weight} {n : Nat}
    {c : ℝ} {noise : Tensor2} {gc : (Tensor2 → Option ℝ) → Tensor2 → Tensor2}
    {l : ℝ} {pert : Tensor2}
    (hok : VAT input network nta xi eps w n c noise gc = .ok (l, pert)) :
    ∃ dir xv ce weighted,
      vatLoop gc (nta.getD network) input (softmax ((nta.getD network) input)) c w xi n
        (tscale xi (normalized c noise)) none = .ok dir ∧
      pert = stop_gradient (tscale eps dir) ∧
      ebop2 (· + ·) input pert = some xv ∧
      crossEntropyRows c (stop_gradient (softmax (network input))) (softmax (network xv))
        = some ce ∧
      Weight.mul w ce = some weighted ∧
      l = weighted.sum / (Weight.sum w + 1e-30) := by
  simp only [VAT] at hok
  rw [currentSoftmax_eq nta network input] at hok
  split at hok
  · exact absurd hok (by simp)
  · rename_i dir hloop
    split at hok
    · exact absurd hok (by simp)
    · rename_i xv hadd
      split at hok
      · exact absurd hok (by simp)
      · rename_i ce hce
        split at hok
        · exact absurd hok (by simp)
        · rename_i weighted hmul
          simp only [Except.ok.injEq, Prod.mk.injEq] at hok
          obtain ⟨hl, hp⟩ := hok
          rw [hp] at hadd
          exact ⟨dir, xv, ce, weighted, hloop, hp.symm, hadd, hce, hmul, hl.symm⟩

/-- Every direction an approximation loop run with at least one iteration can
return is a clip-normalized output of the gradient capability, evaluated on
the summed weighted divergence; with a shape-preserving gradient capability
its shape is the shape of the initial probe perturbation. -/
lemma vatLoop_ok_dir {gc : (Tensor2 → Option ℝ) → Tensor2 → Tensor2}
    {netA : Tensor2 → Tensor2} {input plain : Tensor2} {c : ℝ} {w : Weight}
    {xi : ℝ} {S : List Nat}
    (hgrad : ∀ f p, shapeOf (gc f p) = shapeOf p) :
    ∀ (n : Nat) (pert : Tensor2) (dir0 : Option Tensor2) (d : Tensor2),
      shapeOf pert = S →
      vatLoop gc netA input plain c w xi n pert dir0 = .ok d →
      (n = 0 ∧ dir0 = some d) ∨
        ∃ g p', g = gc (summed_cross_entropy netA input plain c w) p' ∧
          shapeOf g = S ∧ d = normalized c g := by
  intro n
  induction n with
  | zero =>
    intro pert dir0 d _ h
    cases dir0 with
    | none => exact absurd h (by simp [vatLoop])
    | some d0 =>
      refine Or.inl ⟨rfl, ?_⟩
      simp only [vatLoop] at h
      obtain rfl : d0 = d := by simpa using h
      rfl
  | succ m ih =>
    intro pert dir0 d hshape h
    simp only [vatLoop] at h
    split at h
    · exact absurd h (by simp)
    · have hshape' :
          shapeOf (tscale xi (normalized c
            (gc (summed_cross_entropy netA input plain c w) pert))) = S := by
        rw [shapeOf_tscale, shapeOf_normalized, hgrad, hshape]
      rcases ih _ _ _ hshape' h with ⟨_, hd⟩ | hrec
      · refine Or.inr ⟨gc (summed_cross_entropy netA input plain c w) pert, pert,
          rfl, by rw [hgrad, hshape], ?_⟩
        exact (Option.some.inj hd).symm
      · exact Or.inr hrec

/-! ## Facts used for the configuration-error analysis -/

/-- With a weight vector whose length matches neither `1` nor the batch size
of the reference distribution (which itself is not a broadcastable length-1
batch), the loop-body divergence is a shape error for every perturbation. -/
lemma ce_accomm_none_of_weight_mismatch {netA : Tensor2 → Tensor2}
    {input plain : Tensor2} {c : ℝ} {ws : List ℝ}
    (h1 : plain.length ≠ 1) (h2 : ws.length ≠ 1) (h3 : ws.length ≠ plain.length) :
    ∀ pert, cross_entropy_accommodating_perturbation netA input plain c
      (.vector ws) pert = none := by
  intro pert
  unfold cross_entropy_accommodating_perturbation
  cases hadd : ebop2 (· + ·) input pert with
  | none => simp
  | some xp =>
    cases hce : crossEntropyRows c plain (softmax (netA xp)) with
    | none => simp [hce]
    | some ce =>
      have hcel : ce.length = plain.length := crossEntropyRows_length hce
      have hmul : Weight.mul (.vector ws) ce = none := by
        show ebop (· * ·) ce ws = none
        unfold ebop
        rw [if_neg (fun hh : ce.length = ws.length => h3 (by rw [← hh, hcel])),
          if_neg (fun hh : ce.length = 1 => h1 (by rw [← hcel]; exact hh)),
          if_neg h2]
      simp [hce, hmul]

lemma vatLoop_shapeError {gc : (Tensor2 → Option ℝ) → Tensor2 → Tensor2}
    {netA : Tensor2 → Tensor2} {input plain : Tensor2} {c : ℝ} {w : Weight}
    {xi : ℝ}
    (hnone : ∀ pert, cross_entropy_accommodating_perturbation netA input plain c w pert = none)
    {n : Nat} (hn : 1 ≤ n) (pert : Tensor2) (dir0 : Option Tensor2) :
    vatLoop gc netA input plain c w xi n pert dir0 = .error .shapeError := by
  cases n with
  | zero => exact absurd hn (by simp)
  | succ m => simp [vatLoop, hnone pert]


/-! ## Claims about `normalized` (C5, C9) -/

lemma exNorm_pair (a b : ℝ) : exNorm [a, b] = Real.sqrt (a ^ 2 + b ^ 2) := by
  simp [exNorm]

/-- C5: `normalized` divides each example of `x` by the clip-floored norm taken
over all non-batch axes; with a positive `clip_value_min` every divisor is
positive (so a near-zero example yields finite values, never NaN/Inf), and
each example whose true norm exceeds `clip_value_min` maps to a row of norm
exactly `1`. -/
theorem normalized_spec (c : ℝ) (x : Tensor2) (hc : 0 < c) :
    normalized c x = x.map (fun e => e.map (fun v => v / clipped c (exNorm e))) ∧
    (∀ e ∈ x, 0 < clipped c (exNorm e)) ∧
    (∀ e ∈ x, c < exNorm e →
      exNorm (e.map (fun v => v / clipped c (exNorm e))) = 1) := by
  refine ⟨rfl, ?_, ?_⟩
  · intro e _
    exact lt_of_lt_of_le hc (le_max_right _ _)
  · intro e _ he
    rw [show clipped c (exNorm e) = exNorm e from max_eq_left he.le]
    exact exNorm_map_div_self e (lt_trans hc he)

/-- Witness for C5 at `clip_value_min = 1`, batch `[[3, 4]]`. -/
theorem normalized_spec_witness :
    (0:ℝ) < 1 ∧
    (normalized 1 [[3, 4]] = [[3, 4]].map (fun e => e.map (fun v => v / clipped 1 (exNorm e))) ∧
      (∀ e ∈ [[(3:ℝ), 4]], 0 < clipped 1 (exNorm e)) ∧
      (∀ e ∈ [[(3:ℝ), 4]], 1 < exNorm e →
        exNorm (e.map (fun v => v / clipped 1 (exNorm e))) = 1)) :=
  ⟨by norm_num, normalized_spec 1 [[3, 4]] (by norm_num)⟩

/-- C9 (amended): `normalized` is invariant under a positive rescaling of its
input provided each example's norm exceeds the clip floor both before and
after the rescaling.  (The claim's hypothesis — only the rescaled norms
exceed the floor — is not sufficient; see the counterexample.) -/
theorem normalized_scale_invariance (clip a : ℝ) (x : Tensor2) (ha : 0 < a)
    (h : ∀ e ∈ x, clip < exNorm e ∧ clip < exNorm (e.map (fun v => a * v))) :
    normalized clip (tscale a x) = normalized clip x := by
  unfold normalized tscale
  rw [List.map_map]
  apply List.map_congr_left
  intro e he
  obtain ⟨h1, h2⟩ := h e he
  simp only [Function.comp_apply, List.map_map]
  apply List.map_congr_left
  intro v _
  have hs : exNorm (e.map (fun v => a * v)) = a * exNorm e := by
    rw [exNorm_map_mul, abs_of_pos ha]
  rw [hs] at h2
  simp only [Function.comp_apply]
  rw [show clipped clip (exNorm (List.map (fun v => a * v) e)) = a * exNorm e from by
      rw [hs]; exact max_eq_left h2.le,
    show clipped clip (exNorm e) = exNorm e from max_eq_left h1.le]
  exact mul_div_mul_left v (exNorm e) (ne_of_gt ha)

/-- Counterexample to C9 as stated: with `clip_value_min = 6`, `c = 2` and the
single example `[3, 4]`, the rescaled example `[6, 8]` has norm `10 > 6`, yet
`normalized` of the rescaled batch (`[[3/5, 4/5]]`) differs from `normalized`
of the original (`[[1/2, 2/3]]`), because the original norm `5` sits below
the clip floor. -/
theorem normalized_scale_invariance_cex :
    (0:ℝ) < 2 ∧
    (∀ e ∈ [[(3:ℝ), 4]], 6 < exNorm (e.map (fun v => 2 * v))) ∧
    normalized 6 (tscale 2 [[3, 4]]) ≠ normalized 6 [[3, 4]] := by
  have e1 : exNorm [(6:ℝ), 8] = 10 := by
    rw [exNorm_pair, show ((6:ℝ) ^ 2 + 8 ^ 2) = 10 ^ 2 by norm_num,
      Real.sqrt_sq (by norm_num : (0:ℝ) ≤ 10)]
  have e2 : exNorm [(3:ℝ), 4] = 5 := by
    rw [exNorm_pair, show ((3:ℝ) ^ 2 + 4 ^ 2) = 5 ^ 2 by norm_num,
      Real.sqrt_sq (by norm_num : (0:ℝ) ≤ 5)]
  refine ⟨by norm_num, ?_, ?_⟩
  · intro e he
    obtain rfl : e = [(3:ℝ), 4] := by simpa using he
    rw [show List.map (fun v => (2:ℝ) * v) [3, 4] = [6, 8] by norm_num, e1]
    norm_num
  · intro h
    rw [show tscale 2 [[(3:ℝ), 4]] = [[6, 8]] from by norm_num [tscale]] at h
    simp only [normalized, List.map_cons, List.map_nil, e1, e2] at h
    norm_num [clipped] at h


/-! ## Configuration-default equivalence (C7) and determinism (C10) -/

/-- C7: calling `VAT` with `network_to_approximate` explicitly equal to
`network` produces results identical to omitting it.  The two code paths —
recomputing the reference distribution via `network` versus reusing
`plain_softmax` (which was itself computed via the approximation network) —
coincide when the two capabilities are the same function. -/
theorem vat_approx_scorer_default (input : Tensor2) (network : Tensor2 → Tensor2)
    (xi eps : ℝ) (w : Weight) (n : Nat) (c : ℝ) (noise : Tensor2)
    (gc : (Tensor2 → Option ℝ) → Tensor2 → Tensor2) :
    VAT input network (some network) xi eps w n c noise gc
      = VAT input network none xi eps w n c noise gc := rfl

/-- C10: `VAT` is deterministic — two calls with equal inputs, equal scoring
and gradient capabilities, equal configuration, and the same sampled noise
return equal `(loss, perturbation)` results; there is no hidden state beyond
the injected noise source. -/
theorem vat_deterministic (input₁ input₂ : Tensor2)
    (net₁ net₂ : Tensor2 → Tensor2) (nta₁ nta₂ : Option (Tensor2 → Tensor2))
    (xi₁ xi₂ eps₁ eps₂ : ℝ) (w₁ w₂ : Weight) (n₁ n₂ : Nat) (c₁ c₂ : ℝ)
    (noise₁ noise₂ : Tensor2)
    (gc₁ gc₂ : (Tensor2 → Option ℝ) → Tensor2 → Tensor2)
    (hin : input₁ = input₂) (hnet : net₁ = net₂) (hnta : nta₁ = nta₂)
    (hxi : xi₁ = xi₂) (heps : eps₁ = eps₂) (hw : w₁ = w₂) (hn : n₁ = n₂)
    (hc : c₁ = c₂) (hnoise : noise₁ = noise₂) (hgc : gc₁ = gc₂) :
    VAT input₁ net₁ nta₁ xi₁ eps₁ w₁ n₁ c₁ noise₁ gc₁
      = VAT input₂ net₂ nta₂ xi₂ eps₂ w₂ n₂ c₂ noise₂ gc₂ := by
  subst hin hnet hnta hxi heps hw hn hc hnoise hgc
  rfl

/-- Witness for C10 at a concrete call. -/
theorem vat_deterministic_witness :
    VAT [[0]] (fun t => t) none 1 1 (.scalar 1) 1 (1/2) [[1]] (fun _ p => p)
      = VAT [[0]] (fun t => t) none 1 1 (.scalar 1) 1 (1/2) [[1]] (fun _ p => p) :=
  vat_deterministic _ _ _ _ _ _ _ _ _ _ _ _ _ _ _ _ _ _ _ _
    rfl rfl rfl rfl rfl rfl rfl rfl rfl rfl

/-! ## All-zero weight (C8) -/

lemma zipWith_mul_sum_zero : ∀ (a b : List ℝ), (∀ v ∈ b, v = 0) →
    (List.zipWith (· * ·) a b).sum = 0
  | [], _, _ => by simp
  | _ :: _, [], _ => by simp
  | x :: xs, y :: ys, h => by
    simp only [List.zipWith_cons_cons, List.sum_cons]
    rw [h y (by simp), mul_zero, zero_add]
    exact zipWith_mul_sum_zero xs ys (fun v hv => h v (by simp [hv]))

/-- Multiplying any per-example loss vector by an all-zero weight gives a
vector summing to zero. -/
lemma weight_mul_allZero_sum {w : Weight} {ce out : List ℝ} (hw : w.allZero)
    (h : Weight.mul w ce = some out) : out.sum = 0 := by
  cases w with
  | scalar a =>
    obtain rfl : a = 0 := hw
    obtain rfl : ce.map (fun x => x * 0) = out := by simpa [Weight.mul] using h
    apply List.sum_eq_zero
    intro x hx
    obtain ⟨v, _, rfl⟩ := List.mem_map.mp hx
    exact mul_zero v
  | vector ws =>
    replace hw : ∀ v ∈ ws, v = 0 := hw
    have hhead : ws.headD 0 = 0 := by
      cases ws with
      | nil => rfl
      | cons y ys => exact hw y (by simp)
    replace h : ebop (· * ·) ce ws = some out := h
    unfold ebop at h
    by_cases h1 : ce.length = ws.length
    · rw [if_pos h1] at h
      obtain rfl : List.zipWith (· * ·) ce ws = out := by simpa using h
      exact zipWith_mul_sum_zero ce ws hw
    · rw [if_neg h1] at h
      by_cases h2 : ce.length = 1
      · rw [if_pos h2] at h
        obtain rfl : ws.map (fun b => ce.headD 0 * b) = out := by simpa using h
        apply List.sum_eq_zero
        intro x hx
        obtain ⟨v, hv, rfl⟩ := List.mem_map.mp hx
        rw [hw v hv, mul_zero]
      · rw [if_neg h2] at h
        by_cases h3 : ws.length = 1
        · rw [if_pos h3] at h
          obtain rfl : ce.map (fun a => a * ws.headD 0) = out := by simpa using h
          apply List.sum_eq_zero
          intro x hx
          obtain ⟨v, _, rfl⟩ := List.mem_map.mp hx
          rw [hhead, mul_zero]
        · rw [if_neg h3] at h
          simp at h

/-- C8: with an all-zero weight, `VAT` raises no division error and the loss
is finite — in fact exactly `0`: the code's denominator `sum(weight) + 1e-30`
is strictly positive, as is the spec's `sum(weight) + clip_value_min` for any
positive clip floor. -/
theorem vat_all_zero_weight_safe (input : Tensor2) (network : Tensor2 → Tensor2)
    (nta : Option (Tensor2 → Tensor2)) (xi eps : ℝ) (w : Weight) (n : Nat)
    (c : ℝ) (noise : Tensor2) (gc : (Tensor2 → Option ℝ) → Tensor2 → Tensor2)
    (l : ℝ) (pert : Tensor2)
    (hw : w.allZero) (hc : 0 < c)
    (hok : VAT input network nta xi eps w n c noise gc = .ok (l, pert)) :
    l = 0 ∧ 0 < Weight.sum w + 1e-30 ∧ 0 < Weight.sum w + c := by
  obtain ⟨dir, xv, ce, weighted, _, _, _, _, hmul, hl⟩ := VAT_ok_char hok
  have hwsum : Weight.sum w = 0 := by
    cases w with
    | scalar a => exact hw
    | vector ws => exact List.sum_eq_zero hw
  refine ⟨?_, by rw [hwsum]; norm_num, by rw [hwsum]; simpa using hc⟩
  rw [hl, weight_mul_allZero_sum hw hmul, zero_div]

/-- Witness for C8: a concrete call with the all-zero weight vector `[0]`. -/
theorem vat_all_zero_weight_safe_witness :
    Weight.allZero (.vector [0]) ∧ (0:ℝ) < 1/2 ∧
    VAT [[0]] (fun t => t) none 1 1 (.vector [0]) 1 (1/2) [[1]] (fun _ p => p)
      = .ok (0, [[1]]) ∧
    ((0:ℝ) = 0 ∧ 0 < Weight.sum (.vector [0]) + 1e-30 ∧
      0 < Weight.sum (.vector [0]) + 1/2) := by
  have hev : VAT [[0]] (fun t => t) none 1 1 (.vector [0]) 1 (1/2) [[1]] (fun _ p => p)
      = .ok (0, [[1]]) := by
    simp [VAT, vatLoop, cross_entropy_accommodating_perturbation, crossEntropyRows, ebop2,
      ebop, tlog, tclip, tscale, normalized, softmax, softmaxRow_singleton, Weight.mul,
      Weight.sum, clipped, exNorm_singleton, stop_gradient]
    norm_num
  exact ⟨by intro v hv; simpa using hv, by norm_num, hev,
    vat_all_zero_weight_safe _ _ _ _ _ _ _ _ _ _ _ _
      (by intro v hv; simpa using hv) (by norm_num) hev⟩


/-! ## The final scalar (C1, C3) -/

/-- Shared concrete run: single example `[[0]]`, identity scorer (one class),
`xi = epsilon = 1`, scalar weight `1`, one iteration, `clip_value_min = 1/2`,
noise `[[1]]`, gradient capability returning its evaluation point.  The
single-class softmax is constantly `[1]`, so every divergence is
`-log (max 1 (1/2)) = 0` and the loss is `0`. -/
lemma VAT_eval_unit :
    VAT [[0]] (fun t => t) none 1 1 (.scalar 1) 1 (1/2) [[1]] (fun _ p => p)
      = .ok (0, [[1]]) := by
  simp [VAT, vatLoop, cross_entropy_accommodating_perturbation, crossEntropyRows, ebop2,
    ebop, tlog, tclip, tscale, normalized, softmax, softmaxRow_singleton, Weight.mul,
    Weight.sum, clipped, exNorm_singleton, stop_gradient]
  norm_num

/-- C1 (amended): the final scalar is the sum of the per-example weighted
losses divided by `sum(weight) + 1e-30`, where `1e-30` is a fixed literal of
the source (src/vat.py line 50) equal to the DEFAULT `clip_value_min` but
independent of the caller-supplied parameter. -/
theorem vat_final_scalar (input : Tensor2) (network : Tensor2 → Tensor2)
    (nta : Option (Tensor2 → Tensor2)) (xi eps : ℝ) (w : Weight) (n : Nat)
    (c : ℝ) (noise : Tensor2) (gc : (Tensor2 → Option ℝ) → Tensor2 → Tensor2)
    (l : ℝ) (pert : Tensor2)
    (hok : VAT input network nta xi eps w n c noise gc = .ok (l, pert)) :
    ∃ xv ce weighted,
      ebop2 (· + ·) input pert = some xv ∧
      crossEntropyRows c (stop_gradient (softmax (network input))) (softmax (network xv))
        = some ce ∧
      Weight.mul w ce = some weighted ∧
      l = weighted.sum / (Weight.sum w + 1e-30) := by
  obtain ⟨dir, xv, ce, weighted, _, _, h3, h4, h5, h6⟩ := VAT_ok_char hok
  exact ⟨xv, ce, weighted, h3, h4, h5, h6⟩

/-- Witness for C1 (amended) at the shared concrete run. -/
theorem vat_final_scalar_witness :
    VAT [[0]] (fun t => t) none 1 1 (.scalar 1) 1 (1/2) [[1]] (fun _ p => p)
      = .ok (0, [[1]]) ∧
    (∃ xv ce weighted,
      ebop2 (· + ·) [[0]] [[1]] = some xv ∧
      crossEntropyRows (1/2) (stop_gradient (softmax ((fun t => t) [[0]])))
        (softmax ((fun t => t) xv)) = some ce ∧
      Weight.mul (.scalar 1) ce = some weighted ∧
      (0:ℝ) = weighted.sum / (Weight.sum (.scalar 1) + 1e-30)) :=
  ⟨VAT_eval_unit, vat_final_scalar _ _ _ _ _ _ _ _ _ _ _ _ VAT_eval_unit⟩

/-- Counterexample to C1 as stated: with caller-supplied `clip_value_min = 3`
the run below returns per-example weighted losses summing to `-log 3` with
`sum(weight) = 1`, and the final scalar is `-log 3 / (1 + 1e-30)` — not
`-log 3 / (sum(weight) + clip_value_min) = -log 3 / (1 + 3)` as the claim
requires. -/
theorem vat_final_scalar_cex :
    VAT [[0]] (fun t => t) none 1 1 (.scalar 1) 1 3 [[1]] (fun _ _ => [[1]])
      = .ok (-Real.log 3 / (1 + 1e-30), [[1/3]]) ∧
    -Real.log 3 / (1 + 1e-30) ≠ -Real.log 3 / (Weight.sum (.scalar 1) + 3) := by
  constructor
  · simp [VAT, vatLoop, cross_entropy_accommodating_perturbation, crossEntropyRows, ebop2,
      ebop, tlog, tclip, tscale, normalized, softmax, softmaxRow_singleton, Weight.mul,
      Weight.sum, clipped, exNorm_singleton, stop_gradient]
  · have hl : Real.log 3 ≠ 0 := ne_of_gt (Real.log_pos (by norm_num))
    simp only [Weight.sum]
    intro h
    rw [div_eq_div_iff (by norm_num) (by norm_num)] at h
    have h2 : Real.log 3 * (1 + 3) = Real.log 3 * (1 + 1e-30) := by linarith
    have h4 : (1 + 3 : ℝ) = 1 + 1e-30 := mul_left_cancel₀ hl h2
    norm_num at h4

lemma zipWith_mul_ones : ∀ (ce : List ℝ),
    List.zipWith (· * ·) ce (List.replicate ce.length 1) = ce
  | [] => rfl
  | x :: xs => by simp [List.replicate_succ, zipWith_mul_ones xs]

/-- C3 (amended): with weight the all-ones VECTOR of length `N` = batch size,
the final loss is the sum of the per-example divergences divided by
`N + 1e-30` — the unweighted arithmetic mean up to the `1e-30` guard in the
denominator.  (With the default SCALAR weight `1.0`, `sum(weight)` is `1`,
not `N`, so the loss is approximately the SUM of the per-example
divergences; see the counterexample.) -/
theorem vat_uniform_weight_mean (input : Tensor2) (network : Tensor2 → Tensor2)
    (nta : Option (Tensor2 → Tensor2)) (xi eps : ℝ) (n : Nat) (c : ℝ)
    (noise : Tensor2) (gc : (Tensor2 → Option ℝ) → Tensor2 → Tensor2)
    (l : ℝ) (pert : Tensor2) (N : Nat)
    (hN : input.length = N)
    (hnet : (network input).length = input.length)
    (hok : VAT input network nta xi eps (.vector (List.replicate N 1)) n c noise gc
      = .ok (l, pert)) :
    ∃ xv ce,
      ebop2 (· + ·) input pert = some xv ∧
      crossEntropyRows c (stop_gradient (softmax (network input))) (softmax (network xv))
        = some ce ∧
      l = ce.sum / (N + 1e-30) := by
  obtain ⟨dir, xv, ce, weighted, _, _, h3, h4, h5, h6⟩ := VAT_ok_char hok
  have hcel : ce.length = N := by
    rw [crossEntropyRows_length h4]
    simpa [stop_gradient, softmax] using hnet.trans hN
  have hmul : weighted = ce := by
    replace h5 : ebop (· * ·) ce (List.replicate N 1) = some weighted := h5
    rw [ebop_eq_zipWith _ _ _ (by simp [hcel])] at h5
    rw [← Option.some.inj h5, ← hcel, zipWith_mul_ones]
  have hsum : Weight.sum (.vector (List.replicate N 1)) = N := by
    simp [Weight.sum, List.sum_replicate]
  exact ⟨xv, ce, h3, h4, by rw [h6, hmul, hsum]⟩

/-- Witness for C3 (amended): batch size 1 with the all-ones weight vector. -/
theorem vat_uniform_weight_mean_witness :
    VAT [[0]] (fun t => t) none 1 1 (.vector (List.replicate 1 1)) 1 (1/2) [[1]]
      (fun _ p => p) = .ok (0, [[1]]) ∧
    (∃ xv ce,
      ebop2 (· + ·) [[0]] [[1]] = some xv ∧
      crossEntropyRows (1/2) (stop_gradient (softmax ((fun t => t) [[0]])))
        (softmax ((fun t => t) xv)) = some ce ∧
      (0:ℝ) = ce.sum / ((1:ℕ) + 1e-30)) := by
  have hev : VAT [[0]] (fun t => t) none 1 1 (.vector (List.replicate 1 1)) 1 (1/2) [[1]]
      (fun _ p => p) = .ok (0, [[1]]) := by
    simp [VAT, vatLoop, cross_entropy_accommodating_perturbation, crossEntropyRows, ebop2,
      ebop, tlog, tclip, tscale, normalized, softmax, softmaxRow_singleton, Weight.mul,
      Weight.sum, clipped, exNorm_singleton, stop_gradient, List.replicate]
    norm_num
  exact ⟨hev, vat_uniform_weight_mean [[0]] (fun t => t) none 1 1 1 (1/2) [[1]]
    (fun _ p => p) 0 [[1]] 1 rfl rfl hev⟩

/-- Counterexample to C3 as stated: a batch of TWO examples with the default
scalar weight `1.0`.  Both per-example divergences equal `-log 3`, their
unweighted mean is `(-log 3 + -log 3) / 2`, but the code returns
`(-log 3 + -log 3) / (1 + 1e-30)` — approximately the sum, not the mean. -/
theorem vat_uniform_weight_mean_cex :
    VAT [[0], [0]] (fun t => t) none 1 1 (.scalar 1) 1 3 [[1], [1]]
      (fun _ _ => [[1], [1]])
      = .ok ((-Real.log 3 + -Real.log 3) / (1 + 1e-30), [[1/3], [1/3]]) ∧
    (-Real.log 3 + -Real.log 3) / (1 + 1e-30) ≠ (-Real.log 3 + -Real.log 3) / 2 := by
  constructor
  · simp [VAT, vatLoop, cross_entropy_accommodating_perturbation, crossEntropyRows, ebop2,
      ebop, tlog, tclip, tscale, normalized, softmax, softmaxRow_singleton, Weight.mul,
      Weight.sum, clipped, exNorm_singleton, stop_gradient]
  · have hl : Real.log 3 ≠ 0 := ne_of_gt (Real.log_pos (by norm_num))
    intro h
    rw [div_eq_div_iff (by norm_num) (by norm_num)] at h
    have h2 : Real.log 3 * 2 = Real.log 3 * (1 + 1e-30) := by linarith
    have h4 : (2 : ℝ) = 1 + 1e-30 := mul_left_cancel₀ hl h2
    norm_num at h4


/-! ## Configuration errors (C2) -/

/-- C2 (amended): `num_approximation = 0` fails at call time with an
unbound-variable error (the loop body never defines `vat_perturbation`), and
a weight vector whose length matches neither the batch size nor a
broadcastable `1` fails with a shape error on the first loop iteration.
Non-positive `xi` or `epsilon` are NOT validated: the source accepts them
silently (see the counterexample). -/
theorem vat_invalid_config_behavior :
    (∀ (input : Tensor2) (network : Tensor2 → Tensor2)
        (nta : Option (Tensor2 → Tensor2)) (xi eps : ℝ) (w : Weight) (c : ℝ)
        (noise : Tensor2) (gc : (Tensor2 → Option ℝ) → Tensor2 → Tensor2),
        VAT input network nta xi eps w 0 c noise gc = .error .unboundVariable) ∧
    (∀ (input : Tensor2) (network : Tensor2 → Tensor2)
        (nta : Option (Tensor2 → Tensor2)) (xi eps : ℝ) (ws : List ℝ) (n : Nat)
        (c : ℝ) (noise : Tensor2) (gc : (Tensor2 → Option ℝ) → Tensor2 → Tensor2),
        1 ≤ n →
        ((nta.getD network) input).length ≠ 1 →
        ws.length ≠ 1 →
        ws.length ≠ ((nta.getD network) input).length →
        VAT input network nta xi eps (.vector ws) n c noise gc
          = .error .shapeError) := by
  constructor
  · intro input network nta xi eps w c noise gc
    simp [VAT, vatLoop]
  · intro input network nta xi eps ws n c noise gc hn h1 h2 h3
    have hplain : (softmax ((nta.getD network) input)).length
        = ((nta.getD network) input).length := by simp [softmax]
    have hnone := @ce_accomm_none_of_weight_mismatch (nta.getD network) input
      (softmax ((nta.getD network) input)) c ws
      (by rw [hplain]; exact h1) h2 (by rw [hplain]; exact h3)
    simp only [VAT]
    rw [vatLoop_shapeError hnone hn _ _]

/-- Witness for C2 (amended): `num_approximation = 0` on a concrete call, and
a length-3 weight vector against a batch of 2 examples. -/
theorem vat_invalid_config_behavior_witness :
    VAT [[0]] (fun t => t) none 1 1 (.scalar 1) 0 (1/2) [[1]] (fun _ p => p)
      = .error .unboundVariable ∧
    ((1:ℕ) ≤ 1 ∧
      (((none : Option (Tensor2 → Tensor2)).getD (fun t => t)) [[(0:ℝ)], [0]]).length ≠ 1 ∧
      ([(1:ℝ), 2, 3]).length ≠ 1 ∧
      ([(1:ℝ), 2, 3]).length ≠ (((none : Option (Tensor2 → Tensor2)).getD (fun t => t)) [[(0:ℝ)], [0]]).length ∧
      VAT [[0], [0]] (fun t => t) none 1 1 (.vector [1, 2, 3]) 1 (1/2) [[1], [1]]
        (fun _ p => p) = .error .shapeError) := by
  have h1 : (((none : Option (Tensor2 → Tensor2)).getD (fun t => t)) [[(0:ℝ)], [0]]).length ≠ 1 := by
    simp
  have h2 : ([(1:ℝ), 2, 3]).length ≠ 1 := by simp
  have h3 : ([(1:ℝ), 2, 3]).length ≠ (((none : Option (Tensor2 → Tensor2)).getD (fun t => t)) [[(0:ℝ)], [0]]).length := by
    simp
  exact ⟨vat_invalid_config_behavior.1 _ _ _ _ _ _ _ _ _,
    le_refl 1, h1, h2, h3,
    vat_invalid_config_behavior.2 _ _ _ _ _ _ _ _ _ _ (le_refl 1) h1 h2 h3⟩

/-- Counterexample to C2 as stated: the invalid configuration `xi = -1`
(non-positive `xi`) is accepted silently — the call returns a normal
`(loss, perturbation)` result and reports no error of any kind. -/
theorem vat_accepts_nonpositive_xi_cex :
    VAT [[0]] (fun t => t) none (-1) 1 (.scalar 1) 1 (1/2) [[1]] (fun _ p => p)
      = .ok (0, [[-1]]) ∧
    ¬ reportsError
      (VAT [[0]] (fun t => t) none (-1) 1 (.scalar 1) 1 (1/2) [[1]] (fun _ p => p)) := by
  have hev : VAT [[0]] (fun t => t) none (-1) 1 (.scalar 1) 1 (1/2) [[1]] (fun _ p => p)
      = .ok (0, [[-1]]) := by
    simp [VAT, vatLoop, cross_entropy_accommodating_perturbation, crossEntropyRows, ebop2,
      ebop, tlog, tclip, tscale, normalized, softmax, softmaxRow_singleton, Weight.mul,
      Weight.sum, clipped, exNorm_singleton, stop_gradient]
    norm_num
  refine ⟨hev, ?_⟩
  rw [reportsError, hev]
  rintro ⟨e, he⟩
  simp at he


/-! ## Shape and norm of the returned perturbation (C4) -/

lemma zip_map_self {α β : Type _} (F : α → β) :
    ∀ (l : List α), l.zip (l.map F) = l.map (fun a => (a, F a))
  | [] => rfl
  | x :: xs => by simp [zip_map_self F xs]

/-- C4: on a successful run (with the gradient capability shape-preserving,
as `tf.gradients` is, and the noise shaped like the input, as
`tf.random_normal(shape=tf.shape(input_tensor))` guarantees; valid
configuration `epsilon ≥ 0`, `clip_value_min ≥ 0`), the returned perturbation
has the shape of the input batch, it is `epsilon` times the clip-normalized
final gradient direction, and every example whose final-iteration gradient
norm exceeds `clip_value_min` contributes a perturbation row of norm exactly
`epsilon`. -/
theorem vat_perturbation_shape_norm (input : Tensor2) (network : Tensor2 → Tensor2)
    (nta : Option (Tensor2 → Tensor2)) (xi eps : ℝ) (w : Weight) (n : Nat)
    (c : ℝ) (noise : Tensor2) (gc : (Tensor2 → Option ℝ) → Tensor2 → Tensor2)
    (l : ℝ) (pert : Tensor2)
    (hgrad : ∀ f p, shapeOf (gc f p) = shapeOf p)
    (hnoise : shapeOf noise = shapeOf input)
    (hc : 0 ≤ c) (he : 0 ≤ eps)
    (hok : VAT input network nta xi eps w n c noise gc = .ok (l, pert)) :
    shapeOf pert = shapeOf input ∧
    ∃ g, pert = stop_gradient (tscale eps (normalized c g)) ∧
      ∀ pr ∈ g.zip pert, c < exNorm pr.1 → exNorm pr.2 = eps := by
  obtain ⟨dir, xv, ce, weighted, hloop, hpert, _, _, _, _⟩ := VAT_ok_char hok
  have hshape0 : shapeOf (tscale xi (normalized c noise)) = shapeOf input := by
    rw [shapeOf_tscale, shapeOf_normalized, hnoise]
  rcases vatLoop_ok_dir hgrad n _ none dir hshape0 hloop with ⟨_, hbad⟩ | ⟨g, p', _, hgs, hdir⟩
  · simp at hbad
  · have hpg : pert = g.map (fun e => e.map (fun v => eps * (v / clipped c (exNorm e)))) := by
      rw [hpert, hdir]
      simp [stop_gradient, tscale, normalized, List.map_map, Function.comp]
    constructor
    · rw [hpg, shapeOf_map_rows, hgs]
    · refine ⟨g, by rw [hpert, hdir], ?_⟩
      intro pr hpr hnorm
      have hzip : g.zip pert
          = g.map (fun e => (e, e.map (fun v => eps * (v / clipped c (exNorm e))))) := by
        rw [hpg, zip_map_self]
      rw [hzip] at hpr
      obtain ⟨e, _, rfl⟩ := List.mem_map.mp hpr
      simp only at hnorm ⊢
      have hD : clipped c (exNorm e) = exNorm e := max_eq_left hnorm.le
      have hpos : 0 < exNorm e := lt_of_le_of_lt hc hnorm
      calc exNorm (e.map (fun v => eps * (v / clipped c (exNorm e))))
          = exNorm ((e.map (fun v => v / clipped c (exNorm e))).map (fun v => eps * v)) := by
            rw [List.map_map]
            rfl
        _ = |eps| * exNorm (e.map (fun v => v / clipped c (exNorm e))) :=
            exNorm_map_mul eps _
        _ = |eps| * exNorm (e.map (fun v => v / exNorm e)) := by rw [hD]
        _ = |eps| * 1 := by rw [exNorm_map_div_self e hpos]
        _ = eps := by rw [abs_of_nonneg he, mul_one]

/-- Witness for C4 at the shared concrete run (identity gradient capability,
which is shape-preserving). -/
theorem vat_perturbation_shape_norm_witness :
    (∀ (f : Tensor2 → Option ℝ) (p : Tensor2),
      shapeOf ((fun (_ : Tensor2 → Option ℝ) (p : Tensor2) => p) f p) = shapeOf p) ∧
    shapeOf [[(1:ℝ)]] = shapeOf [[(0:ℝ)]] ∧ (0:ℝ) ≤ 1/2 ∧ (0:ℝ) ≤ 1 ∧
    VAT [[0]] (fun t => t) none 1 1 (.scalar 1) 1 (1/2) [[1]] (fun _ p => p)
      = .ok (0, [[1]]) ∧
    (shapeOf [[(1:ℝ)]] = shapeOf [[(0:ℝ)]] ∧
      ∃ g, [[(1:ℝ)]] = stop_gradient (tscale 1 (normalized (1/2) g)) ∧
        ∀ pr ∈ g.zip [[(1:ℝ)]], 1/2 < exNorm pr.1 → exNorm pr.2 = 1) := by
  refine ⟨fun _ _ => rfl, rfl, by norm_num, by norm_num, VAT_eval_unit, ?_⟩
  exact vat_perturbation_shape_norm [[0]] (fun t => t) none 1 1 (.scalar 1) 1 (1/2) [[1]]
    (fun _ p => p) 0 [[1]] (fun _ _ => rfl) rfl (by norm_num) (by norm_num) VAT_eval_unit


/-! ## Per-example final loss (C6) -/

/-- C6: on a successful run the per-example final losses are exactly
`-Σ_class reference * log (clip_floor (vat_distribution))` times the
per-example weight, where `vat_distribution = softmax (scorer (x + pert))`
and the reference distribution `softmax (scorer x)` is wrapped in
`stop_gradient` (it carries no gradient).  The closed form is stated for
matching reference/perturbed shapes; the weighting clause is given for a
scalar weight and for a batch-length weight vector. -/
theorem vat_per_example_loss (input : Tensor2) (network : Tensor2 → Tensor2)
    (nta : Option (Tensor2 → Tensor2)) (xi eps : ℝ) (w : Weight) (n : Nat)
    (c : ℝ) (noise : Tensor2) (gc : (Tensor2 → Option ℝ) → Tensor2 → Tensor2)
    (l : ℝ) (pert : Tensor2)
    (hok : VAT input network nta xi eps w n c noise gc = .ok (l, pert)) :
    ∃ xv ce weighted,
      ebop2 (· + ·) input pert = some xv ∧
      crossEntropyRows c (stop_gradient (softmax (network input))) (softmax (network xv))
        = some ce ∧
      Weight.mul w ce = some weighted ∧
      l = weighted.sum / (Weight.sum w + 1e-30) ∧
      (shapeOf (softmax (network input)) = shapeOf (softmax (network xv)) →
        ce = List.zipWith
          (fun pr qr => -((List.zipWith (fun a b => a * Real.log (clipped c b)) pr qr).sum))
          (stop_gradient (softmax (network input))) (softmax (network xv))) ∧
      (∀ a, w = .scalar a → weighted = ce.map (fun x => x * a)) ∧
      (∀ ws, w = .vector ws → ws.length = ce.length →
        weighted = List.zipWith (· * ·) ce ws) := by
  obtain ⟨dir, xv, ce, weighted, _, _, h3, h4, h5, h6⟩ := VAT_ok_char hok
  refine ⟨xv, ce, weighted, h3, h4, h5, h6, ?_, ?_, ?_⟩
  · intro hsh
    have hcf := crossEntropyRows_sameShape c (stop_gradient (softmax (network input)))
      (softmax (network xv)) (by simpa [stop_gradient] using hsh)
    rw [h4] at hcf
    exact Option.some.inj hcf
  · intro a ha
    subst ha
    exact (Option.some.inj h5).symm
  · intro ws hws hlen
    subst hws
    replace h5 : ebop (· * ·) ce ws = some weighted := h5
    rw [ebop_eq_zipWith _ _ _ hlen.symm] at h5
    exact (Option.some.inj h5).symm

/-- Witness for C6 at the shared concrete run. -/
theorem vat_per_example_loss_witness :
    VAT [[0]] (fun t => t) none 1 1 (.scalar 1) 1 (1/2) [[1]] (fun _ p => p)
      = .ok (0, [[1]]) ∧
    (∃ xv ce weighted,
      ebop2 (· + ·) [[0]] [[1]] = some xv ∧
      crossEntropyRows (1/2) (stop_gradient (softmax ((fun t => t) [[0]])))
        (softmax ((fun t => t) xv)) = some ce ∧
      Weight.mul (.scalar 1) ce = some weighted ∧
      (0:ℝ) = weighted.sum / (Weight.sum (.scalar 1) + 1e-30) ∧
      (shapeOf (softmax ((fun t => t) [[0]])) = shapeOf (softmax ((fun t => t) xv)) →
        ce = List.zipWith
          (fun pr qr =>
            -((List.zipWith (fun a b => a * Real.log (clipped (1/2) b)) pr qr).sum))
          (stop_gradient (softmax ((fun t => t) [[0]]))) (softmax ((fun t => t) xv))) ∧
      (∀ a, Weight.scalar 1 = .scalar a → weighted = ce.map (fun x => x * a)) ∧
      (∀ ws, Weight.scalar 1 = .vector ws → ws.length = ce.length →
        weighted = List.zipWith (· * ·) ce ws)) :=
  ⟨VAT_eval_unit, vat_per_example_loss [[0]] (fun t => t) none 1 1 (.scalar 1) 1 (1/2) [[1]]
    (fun _ p => p) 0 [[1]] VAT_eval_unit⟩


/-- Witness for C9 (amended) at `clip_value_min = 1`, scale `2`, batch
`[[3, 4]]`: both the original norm `5` and the rescaled norm `10` exceed the
floor, and the rescaling hypothesis is non-vacuous. -/
theorem normalized_scale_invariance_witness :
    (0:ℝ) < 2 ∧
    (∀ e ∈ [[(3:ℝ), 4]], 1 < exNorm e ∧ 1 < exNorm (e.map (fun v => 2 * v))) ∧
    normalized 1 (tscale 2 [[3, 4]]) = normalized 1 [[3, 4]] := by
  have e1 : exNorm [(6:ℝ), 8] = 10 := by
    rw [exNorm_pair, show ((6:ℝ) ^ 2 + 8 ^ 2) = 10 ^ 2 by norm_num,
      Real.sqrt_sq (by norm_num : (0:ℝ) ≤ 10)]
  have e2 : exNorm [(3:ℝ), 4] = 5 := by
    rw [exNorm_pair, show ((3:ℝ) ^ 2 + 4 ^ 2) = 5 ^ 2 by norm_num,
      Real.sqrt_sq (by norm_num : (0:ℝ) ≤ 5)]
  have hmem : ∀ e ∈ [[(3:ℝ), 4]], 1 < exNorm e ∧ 1 < exNorm (e.map (fun v => 2 * v)) := by
    intro e he
    obtain rfl : e = [(3:ℝ), 4] := by simpa using he
    rw [show List.map (fun v => (2:ℝ) * v) [3, 4] = [6, 8] by norm_num, e1, e2]
    norm_num
  exact ⟨by norm_num, hmem, normalized_scale_invariance 1 2 [[3, 4]] (by norm_num) hmem⟩

end
